import Mathlib

/-!
Shallow embedding of `miner/payload_building.go` (go-ethereum).

The Go file defines a `Payload` object (the spec's PayloadCache) holding an
empty baseline block, an optional full block with its fees, a one-shot `stop`
channel and a mutex + condition variable; plus `update`, `Resolve`,
`ResolveEmpty`, `ResolveFull` and the `buildPayload` coordinator with its
background improver goroutine.

Every operation on a `Payload` runs entirely under `payload.lock`, so each
operation is a single atomic step on the state.  The embedding therefore
models each Go method as a pure function on the state, and the concurrent
system (threads blocked in `ResolveFull`, the background loop, the timers) as
explicit small-step interpreters over event / signal traces:

  * `Payload` mirrors the Go struct: the closed-or-open `stop` channel becomes
    the boolean `stopClosed`, the `*big.Int` pointers become `Option Int`
    (a `none` models the nil pointer before the first full block is stored).
  * `SysState`/`step` interpret traces of `update` / `Resolve` /
    `ResolveFull` calls, tracking the set of goroutines blocked in
    `cond.Wait` and the results of completed `ResolveFull` calls.  A
    `cond.Broadcast` wakes every waiter; Go's `sync.Cond` has no spurious
    wakeups, so a waiter resumes only at a broadcast.
  * `improverRun` interprets the background goroutine's `select` loop over a
    trace of which `select` case fired (`timer.C`, `payload.stop`,
    `endTimer.C`); the external `w.getSealingBlock` builder is an oracle
    indexed by the attempt counter, since its outcome depends on external
    chain state.

External collaborators (spec sections 2 and 6) are embedded opaquely:
`types.Block` as an opaque token, `beacon.BlockToExecutableData` (the spec's
`ToWireFormat`) as a pure injective wrapper, and `w.getSealingBlock` (the
spec's `BuildCandidate`) as an `Except`-valued oracle parameter.
-/

namespace Miner

/-- Opaque block artifact (`*types.Block`): external to this file, used only
as a token to compare and convert. -/
structure Block where
  id : Nat
  deriving DecidableEq, Repr

/-- Wire representation (`*beacon.ExecutableDataV1`): opaque result of the
external pure conversion. -/
structure ExecutableDataV1 where
  data : Block
  deriving DecidableEq, Repr

/-- Modelled from the spec: `beacon.BlockToExecutableData` (the spec's
`ToWireFormat`) lives outside this file; the spec declares it a pure,
side-effect-free conversion, so it is embedded as a pure wrapper. -/
def BlockToExecutableData (block : Block) : ExecutableDataV1 :=
  { data := block }

/-- The `Payload` struct.  `empty` is the baseline block set at construction;
`full`/`fullFees` are the nil-initialized best block and its fees; the
`stop` channel is represented by whether it has been closed.  The
`lock`/`cond` fields have no data content: the lock makes every method one
atomic step and the condition variable is modelled in `SysState`. -/
structure Payload where
  empty : Block
  full : Option Block
  fullFees : Option Int
  stopClosed : Bool
  deriving DecidableEq, Repr

/-- Constructor `newPayload`: initializes the payload object: no full block yet, `stop`
open. -/
def newPayload (empty : Block) : Payload :=
  { empty := empty, full := none, fullFees := none, stopClosed := false }

/-- The comparison `fees.Cmp(payload.fullFees) > 0`.  The Go code only
reaches it when `payload.full != nil` (short-circuit of `||`), and whenever
`full` is non-nil so is `fullFees`; the `none` branch is unreachable there
and chosen as `false`, which never changes reachable behavior. -/
def feesCmpGt (fees : Int) : Option Int → Bool
  | some cur => decide (cur < fees)
  | none => false

/-- Result of one `update` call: the new payload state and whether
`payload.cond.Broadcast()` was executed. -/
structure UpdateResult where
  payload : Payload
  broadcast : Bool
  deriving DecidableEq, Repr

/-- Method `Payload.update`: reject a stale update if `stop` is closed (returning
before the broadcast); otherwise replace `full`/`fullFees` when `full` is nil
or the new fees are strictly higher, and in either case fire
`cond.Broadcast()`. -/
def Payload.update (payload : Payload) (block : Block) (fees : Int) : UpdateResult :=
  if payload.stopClosed then
    { payload := payload, broadcast := false }
  else
    let payload' :=
      if payload.full.isNone || feesCmpGt fees payload.fullFees then
        { payload with full := some block, fullFees := some fees }
      else
        payload
    { payload := payload', broadcast := true }

/-- Method `Payload.Resolve`: close the `stop` channel unless already closed, then
return the full block if present, else the empty one, converted to wire
format.  Returns the updated state together with the returned value. -/
def Payload.Resolve (payload : Payload) : Payload × ExecutableDataV1 :=
  let payload' := if payload.stopClosed then payload else { payload with stopClosed := true }
  match payload'.full with
  | some full => (payload', BlockToExecutableData full)
  | none => (payload', BlockToExecutableData payload'.empty)

/-- Method `Payload.ResolveEmpty`: return the baseline in wire format; no state
change. -/
def Payload.ResolveEmpty (payload : Payload) : ExecutableDataV1 :=
  BlockToExecutableData payload.empty

/-- Outcome of the entry section of `Payload.ResolveFull` (up to and
including the decision to call `cond.Wait()`):  either the call returns
immediately (`some` wire data, or `none` for the literal `return nil` on the
cancelled path), or the calling goroutine blocks in `cond.Wait()`. -/
inductive ResolveFullEntry where
  | returned (result : Option ExecutableDataV1)
  | blocked
  deriving DecidableEq, Repr

/-- Entry section of `Payload.ResolveFull`: with `full` set, convert and
return it; with `full` nil, return `nil` if `stop` is already closed, else
block in `cond.Wait()`. -/
def Payload.ResolveFullEnter (payload : Payload) : ResolveFullEntry :=
  match payload.full with
  | some full => .returned (some (BlockToExecutableData full))
  | none => if payload.stopClosed then .returned none else .blocked

/-- Resumption of `Payload.ResolveFull` after `cond.Wait()` returns: the Go
code converts `payload.full` unconditionally; `none` models the nil
dereference that a broadcast with `full` still nil would cause. -/
def Payload.ResolveFullWake (payload : Payload) : Option ExecutableDataV1 :=
  payload.full.map BlockToExecutableData

/-! System-level semantics: interleavings of the atomic (lock-protected)
operations, tracking goroutines blocked in `ResolveFull`. -/

/-- One atomic operation of a trace: an `update` by the background goroutine,
a `Resolve` by a consumer, or a `ResolveFull` call by goroutine `tid`. -/
inductive Event where
  | update (block : Block) (fees : Int)
  | resolve
  | resolveFullCall (tid : Nat)
  deriving DecidableEq, Repr

/-- Global state: the payload plus the goroutines currently blocked in
`cond.Wait` inside `ResolveFull` and the results of completed `ResolveFull`
calls. -/
structure SysState where
  payload : Payload
  waiting : List Nat
  finished : List (Nat × Option ExecutableDataV1)
  deriving DecidableEq, Repr

/-- Initial system state around a freshly constructed payload. -/
def initSys (empty : Block) : SysState :=
  { payload := newPayload empty, waiting := [], finished := [] }

/-- One atomic step.  An `update` that reaches `cond.Broadcast()` wakes every
blocked waiter, each of which resumes and converts `payload.full`; an update
that returns early (stop closed) wakes nobody.  `Resolve` only mutates the
payload (it contains no broadcast).  A `ResolveFull` call either returns at
once or joins the waiters. -/
def step (s : SysState) : Event → SysState
  | .update block fees =>
      if (s.payload.update block fees).broadcast then
        { payload := (s.payload.update block fees).payload,
          waiting := [],
          finished := s.finished ++ s.waiting.map
            (fun tid => (tid, (s.payload.update block fees).payload.ResolveFullWake)) }
      else
        { s with payload := (s.payload.update block fees).payload }
  | .resolve =>
      { s with payload := (s.payload.Resolve).1 }
  | .resolveFullCall tid =>
      match s.payload.ResolveFullEnter with
      | .returned result => { s with finished := s.finished ++ [(tid, result)] }
      | .blocked => { s with waiting := s.waiting ++ [tid] }

/-- Run a trace of events. -/
def run (s : SysState) (events : List Event) : SysState :=
  events.foldl step s

/-- States reachable from a freshly built payload by some trace. -/
def Reachable (s : SysState) : Prop :=
  ∃ empty events, s = run (initSys empty) events

/-- Key system invariant: goroutines are blocked in `cond.Wait` only while
`full` is still nil (a `ResolveFull` caller that finds `full` set returns
immediately, and the first accepted update wakes everyone). -/
def SysInv (s : SysState) : Prop := s.waiting ≠ [] → s.payload.full = none

/-- Goroutine 0 is blocked in `cond.Wait` with the `stop` channel already
closed — the configuration of claim C1. -/
def StuckAt0 (s : SysState) : Prop := s.payload.stopClosed = true ∧ 0 ∈ s.waiting

/-! Sequential update folds, used for the fee claims. -/

/-- Fold a list of `update` calls over a payload (each call atomic). -/
def applyUpdates (payload : Payload) (updates : List (Block × Int)) : Payload :=
  updates.foldl (fun p u => (p.update u.1 u.2).payload) payload

/-- The acceptance test of `update`, i.e. whether this call replaces
`full`: not stale, and `full` nil or strictly higher fees. -/
def accepted (payload : Payload) (fees : Int) : Bool :=
  !payload.stopClosed && (payload.full.isNone || feesCmpGt fees payload.fullFees)

/-- Subsequence of the updates that are accepted (replace `full`) when the
whole list is folded over `payload`. -/
def acceptedUpdates (payload : Payload) : List (Block × Int) → List (Block × Int)
  | [] => []
  | u :: rest =>
      if accepted payload u.2 then
        u :: acceptedUpdates ((payload.update u.1 u.2).payload) rest
      else
        acceptedUpdates ((payload.update u.1 u.2).payload) rest

/-- Maximum of a list of fees (`none` on the empty list). -/
def maxFee : List Int → Option Int
  | [] => none
  | f :: fs => some (fs.foldl max f)

/-! The background improver goroutine spawned by `buildPayload`. -/

/-- Which case of the goroutine's `select` fired: the rebuild timer
(`timer.C`), the closed `payload.stop` channel, or the deadline timer
(`endTimer.C`). -/
inductive LoopSignal where
  | timerC
  | stopC
  | endTimerC
  deriving DecidableEq, Repr

/-- Why the loop returned. -/
inductive LoopExit where
  | stopSignal
  | deadline
  deriving DecidableEq, Repr

/-- Local state of the background goroutine: the shared payload, the number
of `getSealingBlock` attempts made so far (indexing the builder oracle), and
the duration the rebuild timer was last set to (`0` at start via
`time.NewTimer(0)`, then `w.recommit` after every attempt). -/
structure LoopState where
  payload : Payload
  attempts : Nat
  timerD : Nat
  deriving DecidableEq, Repr

/-- The goroutine's `for { select ... } }` loop over a trace of fired
signals.  On `timer.C`: call the builder (oracle indexed by the attempt
counter, standing for `w.getSealingBlock(args..., false)` whose outcome
depends on external chain state); on success feed the result to
`payload.update`, on error drop it; in both cases `timer.Reset(w.recommit)`
and keep looping.  On `payload.stop` or `endTimer.C`: `return`.  An
exhausted trace with the loop still running yields exit `none`. -/
def improverRun (recommit : Nat) (getSealingBlock : Nat → Except String (Block × Int)) :
    LoopState → List LoopSignal → LoopState × Option LoopExit
  | st, [] => (st, none)
  | st, .timerC :: rest =>
      (match getSealingBlock st.attempts with
       | .ok (block, fees) =>
          improverRun recommit getSealingBlock
            { payload := (st.payload.update block fees).payload,
              attempts := st.attempts + 1, timerD := recommit } rest
       | .error _ =>
          improverRun recommit getSealingBlock
            { payload := st.payload, attempts := st.attempts + 1, timerD := recommit } rest)
  | st, .stopC :: _ => (st, some .stopSignal)
  | st, .endTimerC :: _ => (st, some .deadline)

/-- Successful outcome of `buildPayload`: the returned payload object and
the freshly spawned background goroutine (initial rebuild timer `0`,
deadline timer `time.Second * 12`, i.e. 12 time units). -/
structure BuildResultOk where
  payload : Payload
  improver : LoopState
  endTimerD : Nat
  deriving DecidableEq, Repr

/-- Coordinator `worker.buildPayload`: synchronously build the empty baseline via
`w.getSealingBlock(args..., true)` (oracle parameter on the `emptyOnly`
flag, closing over `w` and `args`); on error return it directly — no
payload, no goroutine.  Otherwise construct the payload, spawn the improver
goroutine and return at once. -/
def buildPayload (getSealingBlock : Bool → Except String (Block × Int)) :
    Except String BuildResultOk :=
  match getSealingBlock true with
  | .error err => .error err
  | .ok (empty, _) =>
      let payload := newPayload empty
      .ok { payload := payload,
            improver := { payload := payload, attempts := 0, timerD := 0 },
            endTimerD := 12 }

/-- Structural invariant of the Go struct: `full` and `fullFees` are nil
together (both are set only by the same assignment in `update`). -/
def Wf (p : Payload) : Prop := p.full = none ↔ p.fullFees = none

/-- Last element of a fee list, or a default when the list is empty. -/
def lastOr (l : List Int) (d : Option Int) : Option Int :=
  match l with
  | [] => d
  | f :: fs => lastOr fs (some f)

/-- The fee list is strictly increasing, and its head exceeds the optional
starting fee. -/
def IncrFrom : Option Int → List Int → Prop
  | _, [] => True
  | d, f :: fs => (∀ g, d = some g → g < f) ∧ IncrFrom (some f) fs

/-- Repeated `Resolve` calls: `resolveIter p n` is the state/result pair of
the `(n+1)`-st call when `Resolve` is called over and over. -/
def resolveIter (p : Payload) : Nat → Payload × ExecutableDataV1
  | 0 => p.Resolve
  | n + 1 => ((resolveIter p n).1).Resolve

/-! Concrete sample values used by the witness theorems. -/

/-- Sample block 0 (the baseline). -/
def bk0 : Block := { id := 0 }

/-- Sample block 1. -/
def bk1 : Block := { id := 1 }

/-- Sample block 2. -/
def bk2 : Block := { id := 2 }

/-- Sample payload holding a full block of fee 10, not cancelled. -/
def pEx : Payload :=
  { empty := bk0, full := some bk1, fullFees := some 10, stopClosed := false }

/-- Sample system state reached by one accepted update of fee 10. -/
def sEx : SysState := run (initSys bk0) [.update bk1 10]

/-- Sample system state with goroutine 0 blocked in `ResolveFull`. -/
def sExWait : SysState := run (initSys bk0) [.resolveFullCall 0]

/-- Sample system state that is already cancelled, nothing built. -/
def sExStop : SysState := run (initSys bk0) [.resolve]

/-- Sample builder oracle that always fails. -/
def gErr : Bool → Except String (Block × Int) := fun _ => .error "sealing failed"

/-- Sample builder oracle that always succeeds with `bk1` and fee 7. -/
def gOk : Bool → Except String (Block × Int) := fun _ => .ok (bk1, 7)

/-- Sample attempt-indexed builder oracle for the improver loop that always
fails. -/
def gLoopErr : Nat → Except String (Block × Int) := fun _ => .error "sealing failed"

/-- Sample initial state of the background improver loop. -/
def stEx : LoopState := { payload := newPayload bk0, attempts := 0, timerD := 0 }

/-! Basic lemmas about the payload operations. -/

lemma update_stale (p : Payload) (block : Block) (fees : Int) (h : p.stopClosed = true) :
    p.update block fees = { payload := p, broadcast := false } := by
  simp [Payload.update, h]

lemma accepted_iff (p : Payload) (fees : Int) :
    accepted p fees = true ↔
      p.stopClosed = false ∧ (p.full.isNone || feesCmpGt fees p.fullFees) = true := by
  simp [accepted]

lemma update_accepted (p : Payload) (block : Block) (fees : Int) (h : accepted p fees = true) :
    p.update block fees =
      { payload := { p with full := some block, fullFees := some fees }, broadcast := true } := by
  rw [accepted_iff] at h
  simp [Payload.update, h.1, h.2]

lemma update_rejected (p : Payload) (block : Block) (fees : Int) (h : accepted p fees = false) :
    (p.update block fees).payload = p := by
  unfold Payload.update
  cases hs : p.stopClosed with
  | true => simp [hs]
  | false =>
    simp only [accepted, hs, Bool.not_false, Bool.true_and] at h
    simp [hs, h]

lemma update_payload_stopClosed (p : Payload) (block : Block) (fees : Int) :
    (p.update block fees).payload.stopClosed = p.stopClosed := by
  unfold Payload.update
  cases hs : p.stopClosed with
  | true => simp [hs]
  | false =>
    simp only [hs, Bool.false_eq_true, if_false]
    split <;> simp [hs]

lemma update_payload_empty (p : Payload) (block : Block) (fees : Int) :
    (p.update block fees).payload.empty = p.empty := by
  unfold Payload.update
  cases hs : p.stopClosed with
  | true => simp [hs]
  | false =>
    simp only [hs, Bool.false_eq_true, if_false]
    split <;> rfl

lemma update_broadcast (p : Payload) (block : Block) (fees : Int) :
    (p.update block fees).broadcast = !p.stopClosed := by
  unfold Payload.update
  cases hs : p.stopClosed <;> simp [hs]

lemma resolve_fst (p : Payload) : (p.Resolve).1 = { p with stopClosed := true } := by
  obtain ⟨e, f, g, s⟩ := p
  cases s <;> cases f <;> rfl

lemma resolve_snd (p : Payload) :
    (p.Resolve).2 = BlockToExecutableData (p.full.getD p.empty) := by
  obtain ⟨e, f, g, s⟩ := p
  cases s <;> cases f <;> rfl

lemma wf_newPayload (empty : Block) : Wf (newPayload empty) := by
  simp [Wf, newPayload]

lemma wf_update (p : Payload) (block : Block) (fees : Int) (h : Wf p) :
    Wf (p.update block fees).payload := by
  unfold Payload.update
  cases hs : p.stopClosed with
  | true => simpa [hs] using h
  | false =>
    simp only [hs, Bool.false_eq_true, if_false]
    split
    · simp [Wf]
    · exact h

lemma applyUpdates_nil (p : Payload) : applyUpdates p [] = p := rfl

lemma applyUpdates_cons (p : Payload) (u : Block × Int) (us : List (Block × Int)) :
    applyUpdates p (u :: us) = applyUpdates ((p.update u.1 u.2).payload) us := rfl

lemma applyUpdates_append (p : Payload) (us vs : List (Block × Int)) :
    applyUpdates p (us ++ vs) = applyUpdates (applyUpdates p us) vs := by
  simp [applyUpdates, List.foldl_append]

lemma wf_applyUpdates (us : List (Block × Int)) (p : Payload) (h : Wf p) :
    Wf (applyUpdates p us) := by
  induction us generalizing p with
  | nil => exact h
  | cons u rest ih => exact ih _ (wf_update _ u.1 u.2 h)

lemma applyUpdates_empty (us : List (Block × Int)) (p : Payload) :
    (applyUpdates p us).empty = p.empty := by
  induction us generalizing p with
  | nil => rfl
  | cons u rest ih => rw [applyUpdates_cons, ih, update_payload_empty]

lemma full_ne_none_of_fullFees (p : Payload) (hw : Wf p) (g : Int)
    (h : p.fullFees = some g) : p.full ≠ none := by
  intro hf
  unfold Wf at hw
  rw [hw.mp hf] at h
  exact Option.noConfusion h

lemma update_fullFees_cases (p : Payload) (block : Block) (fees : Int) (hw : Wf p)
    (g : Int) (h : p.fullFees = some g) :
    ((p.update block fees).payload = { p with full := some block, fullFees := some fees }
        ∧ g < fees)
    ∨ (p.update block fees).payload = p := by
  cases hs : p.stopClosed with
  | true =>
    right
    rw [update_stale p block fees hs]
  | false =>
    have hfull := full_ne_none_of_fullFees p hw g h
    obtain ⟨b, hb⟩ := Option.ne_none_iff_exists'.mp hfull
    by_cases hlt : g < fees
    · left
      refine ⟨?_, hlt⟩
      have hacc : accepted p fees = true := by
        simp [accepted, hs, h, feesCmpGt, hlt]
      rw [update_accepted p block fees hacc]
      simp [hs]
    · right
      apply update_rejected
      simp [accepted, hs, hb, h, feesCmpGt, hlt]

lemma fullFees_mono (vs : List (Block × Int)) (p : Payload) (g : Int) (hw : Wf p)
    (h : p.fullFees = some g) :
    ∃ g', (applyUpdates p vs).fullFees = some g' ∧ g ≤ g' := by
  induction vs generalizing p g with
  | nil => exact ⟨g, h, le_refl g⟩
  | cons u rest ih =>
    rw [applyUpdates_cons]
    rcases update_fullFees_cases p u.1 u.2 hw g h with ⟨heq, hlt⟩ | heq
    · rw [heq]
      obtain ⟨g', hg', hle⟩ :=
        ih { p with full := some u.1, fullFees := some u.2 } u.2 (by simp [Wf]) rfl
      exact ⟨g', hg', le_trans (le_of_lt hlt) hle⟩
    · rw [heq]
      exact ih p g hw h

/-- Claim C2: `update` replaces `best` (`full`) iff it is absent or the new
fees strictly exceed the stored fee; an update with fees less than or equal
to the stored fee (ties included) leaves `full`, `fullFees` and everything
else unchanged; hence the stored fee only ever grows along a sequence of
updates on a fresh payload. -/
theorem C2_update_monotonic :
    (∀ (p : Payload) (block : Block) (fees : Int),
        p.stopClosed = false → p.full = none →
        (p.update block fees).payload
          = { p with full := some block, fullFees := some fees }) ∧
    (∀ (p : Payload) (block : Block) (fees : Int) (g : Int),
        p.stopClosed = false → p.fullFees = some g → g < fees →
        (p.update block fees).payload
          = { p with full := some block, fullFees := some fees }) ∧
    (∀ (p : Payload) (block : Block) (fees : Int) (g : Int),
        Wf p → p.stopClosed = false → p.fullFees = some g → fees ≤ g →
        (p.update block fees).payload = p) ∧
    (∀ (empty : Block) (us vs : List (Block × Int)) (g g' : Int),
        (applyUpdates (newPayload empty) us).fullFees = some g →
        (applyUpdates (newPayload empty) (us ++ vs)).fullFees = some g' →
        g ≤ g') := by
  refine ⟨?_, ?_, ?_, ?_⟩
  · intro p block fees hs hf
    have hacc : accepted p fees = true := by simp [accepted, hs, hf]
    rw [update_accepted p block fees hacc]
  · intro p block fees g hs hg hlt
    have hacc : accepted p fees = true := by simp [accepted, hs, hg, feesCmpGt, hlt]
    rw [update_accepted p block fees hacc]
  · intro p block fees g hw hs hg hle
    have hfull := full_ne_none_of_fullFees p hw g hg
    obtain ⟨b, hb⟩ := Option.ne_none_iff_exists'.mp hfull
    have hnlt : ¬ g < fees := not_lt.mpr hle
    apply update_rejected
    simp [accepted, hs, hb, hg, feesCmpGt, hnlt]
  · intro empty us vs g g' h1 h2
    have hw := wf_applyUpdates us (newPayload empty) (wf_newPayload empty)
    obtain ⟨g'', hg'', hle⟩ := fullFees_mono vs _ g hw h1
    rw [applyUpdates_append, hg''] at h2
    exact (Option.some.inj h2) ▸ hle

/-- Witness for C2 at concrete inputs: a first update is stored, a higher
fee replaces, a tie is a no-op, and fees grow along a sequence. -/
theorem C2_update_monotonic_witness :
    ((newPayload bk0).update bk1 5).payload
        = { newPayload bk0 with full := some bk1, fullFees := some 5 } ∧
    (pEx.update bk2 11).payload = { pEx with full := some bk2, fullFees := some 11 } ∧
    (pEx.update bk2 10).payload = pEx ∧
    (3 : Int) ≤ 10 :=
  ⟨C2_update_monotonic.1 (newPayload bk0) bk1 5 rfl rfl,
   C2_update_monotonic.2.1 pEx bk2 11 10 rfl rfl (by decide),
   C2_update_monotonic.2.2.1 pEx bk2 10 10 (by simp [Wf, pEx]) rfl rfl (le_refl 10),
   C2_update_monotonic.2.2.2 bk0 [(bk1, 3)] [(bk2, 10)] 3 10 (by decide) (by decide)⟩

/-! Lemmas about accepted updates and the stored fee. -/

lemma acceptedUpdates_cons_acc (p : Payload) (u : Block × Int) (us : List (Block × Int))
    (h : accepted p u.2 = true) :
    acceptedUpdates p (u :: us)
      = u :: acceptedUpdates ((p.update u.1 u.2).payload) us := by
  simp [acceptedUpdates, h]

lemma acceptedUpdates_cons_rej (p : Payload) (u : Block × Int) (us : List (Block × Int))
    (h : accepted p u.2 = false) :
    acceptedUpdates p (u :: us) = acceptedUpdates ((p.update u.1 u.2).payload) us := by
  simp [acceptedUpdates, h]

lemma incrFrom_cons (d : Option Int) (f : Int) (fs : List Int) :
    IncrFrom d (f :: fs) ↔ (∀ g, d = some g → g < f) ∧ IncrFrom (some f) fs :=
  Iff.rfl

lemma fullFees_lastOr (us : List (Block × Int)) (p : Payload) :
    (applyUpdates p us).fullFees
      = lastOr ((acceptedUpdates p us).map Prod.snd) p.fullFees := by
  induction us generalizing p with
  | nil => rfl
  | cons u rest ih =>
    rw [applyUpdates_cons]
    cases hacc : accepted p u.2 with
    | true =>
      rw [acceptedUpdates_cons_acc p u rest hacc, List.map_cons, lastOr,
        update_accepted p u.1 u.2 hacc]
      exact ih _
    | false =>
      rw [acceptedUpdates_cons_rej p u rest hacc]
      have heq := update_rejected p u.1 u.2 hacc
      rw [heq]
      exact ih p

lemma incrFrom_acceptedUpdates (us : List (Block × Int)) (p : Payload) (hw : Wf p) :
    IncrFrom p.fullFees ((acceptedUpdates p us).map Prod.snd) := by
  induction us generalizing p with
  | nil => trivial
  | cons u rest ih =>
    cases hacc : accepted p u.2 with
    | true =>
      rw [acceptedUpdates_cons_acc p u rest hacc, List.map_cons, incrFrom_cons]
      constructor
      · intro g hg
        have hfull := full_ne_none_of_fullFees p hw g hg
        obtain ⟨b, hb⟩ := Option.ne_none_iff_exists'.mp hfull
        simp [accepted, hb, hg, feesCmpGt] at hacc
        exact hacc.2
      · have h2 := ih ((p.update u.1 u.2).payload) (wf_update p u.1 u.2 hw)
        rw [show (p.update u.1 u.2).payload.fullFees = some u.2 from by
          rw [update_accepted p u.1 u.2 hacc]] at h2
        exact h2
    | false =>
      rw [acceptedUpdates_cons_rej p u rest hacc]
      have h2 := ih ((p.update u.1 u.2).payload) (wf_update p u.1 u.2 hw)
      rw [show (p.update u.1 u.2).payload.fullFees = p.fullFees from by
        rw [update_rejected p u.1 u.2 hacc]] at h2
      exact h2

lemma lastOr_eq_foldl_max (fs : List Int) (f : Int) (h : IncrFrom (some f) fs) :
    lastOr fs (some f) = some (fs.foldl max f) := by
  induction fs generalizing f with
  | nil => rfl
  | cons g gs ih =>
    have hfg : f < g := h.1 f rfl
    rw [lastOr, ih g h.2, List.foldl_cons, max_eq_right (le_of_lt hfg)]

lemma lastOr_none_eq_maxFee (fs : List Int) (h : IncrFrom none fs) :
    lastOr fs none = maxFee fs := by
  cases fs with
  | nil => rfl
  | cons f gs => rw [lastOr, lastOr_eq_foldl_max gs f h.2, maxFee]

/-- Claim C3: after any sequence of `update` calls on a fresh payload,
`Resolve` returns the full block in wire format if one is stored, else the
baseline; and the stored fee is exactly the maximum of the fees of the
accepted updates. -/
theorem C3_resolve_returns_max :
    ∀ (empty : Block) (us : List (Block × Int)),
      ((applyUpdates (newPayload empty) us).Resolve).2
        = BlockToExecutableData ((applyUpdates (newPayload empty) us).full.getD empty) ∧
      (applyUpdates (newPayload empty) us).fullFees
        = maxFee ((acceptedUpdates (newPayload empty) us).map Prod.snd) := by
  intro empty us
  constructor
  · rw [resolve_snd, applyUpdates_empty]
    rfl
  · rw [fullFees_lastOr]
    have h := incrFrom_acceptedUpdates us (newPayload empty) (wf_newPayload empty)
    exact lastOr_none_eq_maxFee _ h

/-- Claim C4: once `stop` is closed (in particular after any `Resolve`),
`update` is a silent no-op: it returns before touching `full`, `fullFees`,
the stop state, or the condition variable, so a later `Resolve` sees no
effect of the stale update. -/
theorem C4_stale_update_noop :
    (∀ (p : Payload) (block : Block) (fees : Int), p.stopClosed = true →
        p.update block fees = { payload := p, broadcast := false }) ∧
    (∀ (p : Payload) (block : Block) (fees : Int),
        ((p.Resolve).1).update block fees
          = { payload := (p.Resolve).1, broadcast := false }) ∧
    (∀ (p : Payload) (block : Block) (fees : Int),
        ((((p.Resolve).1).update block fees).payload).Resolve
          = ((p.Resolve).1).Resolve) := by
  have hstop : ∀ p : Payload, (p.Resolve).1.stopClosed = true := by
    intro p
    rw [resolve_fst]
  refine ⟨?_, ?_, ?_⟩
  · intro p block fees h
    exact update_stale p block fees h
  · intro p block fees
    exact update_stale _ block fees (hstop p)
  · intro p block fees
    rw [update_stale _ block fees (hstop p)]

/-- Witness for C4: a stale update on a freshly resolved payload returns it
unchanged without broadcasting. -/
theorem C4_stale_update_noop_witness :
    ((newPayload bk0).Resolve).1.update bk1 5
      = { payload := ((newPayload bk0).Resolve).1, broadcast := false } :=
  C4_stale_update_noop.1 ((newPayload bk0).Resolve).1 bk1 5 rfl

/-- Claim C5: `Resolve` is idempotent: a second call (and hence any number
of repeated calls) returns the same state and the same wire result as the
first one. -/
theorem C5_resolve_idempotent :
    ∀ (p : Payload), (p.Resolve).1.Resolve = p.Resolve ∧ ∀ n, resolveIter p n = p.Resolve := by
  intro p
  have hidem : (p.Resolve).1.Resolve = p.Resolve := by
    obtain ⟨e, f, g, s⟩ := p
    cases s <;> cases f <;> rfl
  refine ⟨hidem, ?_⟩
  intro n
  induction n with
  | zero => rfl
  | succ n ih =>
    show ((resolveIter p n).1).Resolve = p.Resolve
    rw [ih, hidem]

/-! System-level lemmas about `step` and `run`. -/

lemma run_nil (s : SysState) : run s [] = s := rfl

lemma run_cons (s : SysState) (e : Event) (events : List Event) :
    run s (e :: events) = run (step s e) events := rfl

lemma step_update_stale (s : SysState) (block : Block) (fees : Int)
    (h : s.payload.stopClosed = true) :
    step s (.update block fees) = s := by
  simp [step, update_stale s.payload block fees h]

lemma step_update_live (s : SysState) (block : Block) (fees : Int)
    (h : s.payload.stopClosed = false) :
    step s (.update block fees)
      = { payload := (s.payload.update block fees).payload,
          waiting := [],
          finished := s.finished ++ s.waiting.map
            (fun tid => (tid, (s.payload.update block fees).payload.ResolveFullWake)) } := by
  have hb : (s.payload.update block fees).broadcast = true := by
    rw [update_broadcast, h]
    rfl
  simp [step, hb]

lemma step_resolve (s : SysState) :
    step s .resolve = { s with payload := (s.payload.Resolve).1 } := rfl

lemma step_rfc_some (s : SysState) (tid : Nat) (b : Block) (h : s.payload.full = some b) :
    step s (.resolveFullCall tid)
      = { s with finished := s.finished ++ [(tid, some (BlockToExecutableData b))] } := by
  simp [step, Payload.ResolveFullEnter, h]

lemma step_rfc_cancelled (s : SysState) (tid : Nat) (h : s.payload.full = none)
    (h2 : s.payload.stopClosed = true) :
    step s (.resolveFullCall tid)
      = { s with finished := s.finished ++ [(tid, none)] } := by
  simp [step, Payload.ResolveFullEnter, h, h2]

lemma step_rfc_blocked (s : SysState) (tid : Nat) (h : s.payload.full = none)
    (h2 : s.payload.stopClosed = false) :
    step s (.resolveFullCall tid) = { s with waiting := s.waiting ++ [tid] } := by
  simp [step, Payload.ResolveFullEnter, h, h2]

lemma sysInv_step (s : SysState) (e : Event) (h : SysInv s) : SysInv (step s e) := by
  cases e with
  | update block fees =>
    cases hs : s.payload.stopClosed with
    | true =>
      rw [step_update_stale s block fees hs]
      exact h
    | false =>
      rw [step_update_live s block fees hs]
      intro hw
      exact absurd rfl hw
  | resolve =>
    intro hw
    show (s.payload.Resolve).1.full = none
    rw [resolve_fst]
    exact h hw
  | resolveFullCall tid =>
    cases hf : s.payload.full with
    | some b =>
      rw [step_rfc_some s tid b hf]
      intro hw
      exact h hw
    | none =>
      cases hs : s.payload.stopClosed with
      | true =>
        rw [step_rfc_cancelled s tid hf hs]
        intro _
        exact hf
      | false =>
        rw [step_rfc_blocked s tid hf hs]
        intro _
        exact hf

lemma sysInv_run (events : List Event) (s : SysState) (h : SysInv s) :
    SysInv (run s events) := by
  induction events generalizing s with
  | nil => exact h
  | cons e rest ih =>
    rw [run_cons]
    exact ih _ (sysInv_step s e h)

lemma reachable_sysInv (s : SysState) (h : Reachable s) : SysInv s := by
  obtain ⟨empty, events, rfl⟩ := h
  exact sysInv_run events _ (fun hw => absurd rfl hw)

lemma stuckAt0_step (s : SysState) (e : Event) (h : StuckAt0 s) : StuckAt0 (step s e) := by
  obtain ⟨hs, hm⟩ := h
  cases e with
  | update block fees =>
    rw [step_update_stale s block fees hs]
    exact ⟨hs, hm⟩
  | resolve =>
    constructor
    · show (s.payload.Resolve).1.stopClosed = true
      rw [resolve_fst]
    · exact hm
  | resolveFullCall tid =>
    cases hf : s.payload.full with
    | some b =>
      rw [step_rfc_some s tid b hf]
      exact ⟨hs, hm⟩
    | none =>
      rw [step_rfc_cancelled s tid hf hs]
      exact ⟨hs, hm⟩

lemma stuckAt0_run (events : List Event) (s : SysState) (h : StuckAt0 s) :
    StuckAt0 (run s events) := by
  induction events generalizing s with
  | nil => exact h
  | cons e rest ih =>
    rw [run_cons]
    exact ih _ (stuckAt0_step s e h)

/-- Claim C1 (refuted by the code): goroutine 0 calls `ResolveFull` before
any full block exists and blocks in `cond.Wait`; then `Resolve` closes
`stop` without broadcasting.  From that point on, whatever events follow,
goroutine 0 stays in the waiting set forever: every later `update` returns
before its `Broadcast` (stale), and nothing else signals the condition
variable, so the blocked caller is never released — contradicting the
claimed no-hang release with a no-result indicator. -/
theorem C1_resolveFull_blocked_forever :
    ∀ (empty : Block) (events : List Event),
      0 ∈ (run (run (initSys empty) [.resolveFullCall 0, .resolve]) events).waiting := by
  intro empty events
  have h0 : StuckAt0 (run (initSys empty) [.resolveFullCall 0, .resolve]) :=
    ⟨rfl, List.Mem.head _⟩
  exact (stuckAt0_run events _ h0).2

/-- Claim C7: on a reachable state, an `update` whose candidate is rejected
(`full` present, fees not strictly greater) has no observable effect at all
— the system state, including the waiting and finished sets, is unchanged
(on reachable states nobody is blocked once `full` is set, so the
unconditional `Broadcast` wakes nobody); and an `update` step that completes
a blocked `ResolveFull` call actually replaced `full` with its candidate. -/
theorem C7_rejected_update_no_wake :
    (∀ (s : SysState), Reachable s → ∀ (block : Block) (fees : Int) (b : Block),
        s.payload.stopClosed = false → s.payload.full = some b →
        feesCmpGt fees s.payload.fullFees = false →
        step s (.update block fees) = s) ∧
    (∀ (s : SysState), Reachable s → ∀ (block : Block) (fees : Int),
        (step s (.update block fees)).finished ≠ s.finished →
        (step s (.update block fees)).payload.full = some block
          ∧ s.payload.full = none) := by
  constructor
  · intro s hr block fees b hs hb hrej
    have hw : s.waiting = [] := by
      by_contra hne
      rw [reachable_sysInv s hr hne] at hb
      exact Option.noConfusion hb
    have hacc : accepted s.payload fees = false := by
      simp [accepted, hs, hb, hrej]
    rw [step_update_live s block fees hs, update_rejected s.payload block fees hacc, hw]
    obtain ⟨pay, wait, fin⟩ := s
    simp_all
  · intro s hr block fees hne
    cases hs : s.payload.stopClosed with
    | true =>
      rw [step_update_stale s block fees hs] at hne
      exact absurd rfl hne
    | false =>
      have hwne : s.waiting ≠ [] := by
        intro hw
        rw [step_update_live s block fees hs, hw] at hne
        simp at hne
      have hfull := reachable_sysInv s hr hwne
      have hacc : accepted s.payload fees = true := by
        simp [accepted, hs, hfull]
      constructor
      · rw [step_update_live s block fees hs, update_accepted s.payload block fees hacc]
      · exact hfull

/-- Witness for C7: on the reachable state holding fee 10, a rejected
update of fee 3 leaves the whole system state unchanged; and on the
reachable state with goroutine 0 blocked, the update step that wakes it has
stored its candidate. -/
theorem C7_rejected_update_no_wake_witness :
    step sEx (.update bk2 3) = sEx ∧
    ((step sExWait (.update bk1 5)).payload.full = some bk1
      ∧ sExWait.payload.full = none) :=
  ⟨C7_rejected_update_no_wake.1 sEx ⟨bk0, [.update bk1 10], rfl⟩ bk2 3 bk1 rfl rfl rfl,
   C7_rejected_update_no_wake.2 sExWait ⟨bk0, [.resolveFullCall 0], rfl⟩ bk1 5 (by decide)⟩

/-- Claim C10: whenever `update` reaches its `cond.Broadcast()`, the `full`
block is non-nil at that moment (an accepted update just stored it, and a
rejected one required it to be present), so a woken `ResolveFull` caller
never converts a nil block; at system level, a `nil` result of
`ResolveFull` arises only on the cancelled-before-wait entry path. -/
theorem C10_broadcast_full_nonnull :
    (∀ (p : Payload) (block : Block) (fees : Int),
        (p.update block fees).broadcast = true →
        ((p.update block fees).payload.full).isSome = true) ∧
    (∀ (p : Payload) (block : Block) (fees : Int),
        (p.update block fees).broadcast = true →
        (p.update block fees).payload.ResolveFullWake ≠ none) ∧
    (∀ (s : SysState) (e : Event) (tid : Nat),
        (tid, (none : Option ExecutableDataV1)) ∈ (step s e).finished →
        (tid, (none : Option ExecutableDataV1)) ∈ s.finished
          ∨ (e = .resolveFullCall tid ∧ s.payload.full = none
              ∧ s.payload.stopClosed = true)) := by
  have key : ∀ (p : Payload) (block : Block) (fees : Int),
      (p.update block fees).broadcast = true →
      ((p.update block fees).payload.full).isSome = true := by
    intro p block fees hb
    cases hs : p.stopClosed with
    | true =>
      rw [update_stale p block fees hs] at hb
      exact absurd hb (by simp)
    | false =>
      unfold Payload.update
      simp only [hs, Bool.false_eq_true, if_false]
      split
      · rfl
      · rename_i hguard
        cases hf : p.full with
        | some b => rfl
        | none => simp [hf] at hguard
  have wake : ∀ (p : Payload) (block : Block) (fees : Int),
      (p.update block fees).broadcast = true →
      (p.update block fees).payload.ResolveFullWake ≠ none := by
    intro p block fees hb
    have hsome := key p block fees hb
    unfold Payload.ResolveFullWake
    cases hf : (p.update block fees).payload.full with
    | some b => simp
    | none => rw [hf] at hsome; exact absurd hsome (by simp)
  refine ⟨key, wake, ?_⟩
  intro s e tid hmem
  cases e with
  | update block fees =>
    cases hs : s.payload.stopClosed with
    | true =>
      rw [step_update_stale s block fees hs] at hmem
      exact Or.inl hmem
    | false =>
      rw [step_update_live s block fees hs] at hmem
      rcases List.mem_append.mp hmem with hold | hnew
      · exact Or.inl hold
      · exfalso
        obtain ⟨tid', _, hpair⟩ := List.mem_map.mp hnew
        have hb : (s.payload.update block fees).broadcast = true := by
          rw [update_broadcast, hs]
          rfl
        have h2 : (s.payload.update block fees).payload.ResolveFullWake = none := by
          have h3 := congrArg Prod.snd hpair
          simpa using h3
        exact wake s.payload block fees hb h2
  | resolve =>
    exact Or.inl hmem
  | resolveFullCall tid' =>
    cases hf : s.payload.full with
    | some b =>
      rw [step_rfc_some s tid' b hf] at hmem
      rcases List.mem_append.mp hmem with hold | hnew
      · exact Or.inl hold
      · simp at hnew
    | none =>
      cases hs : s.payload.stopClosed with
      | true =>
        rw [step_rfc_cancelled s tid' hf hs] at hmem
        rcases List.mem_append.mp hmem with hold | hnew
        · exact Or.inl hold
        · simp at hnew
          exact Or.inr ⟨by rw [hnew], by simp [hf], by simp [hs]⟩
      | false =>
        rw [step_rfc_blocked s tid' hf hs] at hmem
        exact Or.inl hmem

/-- Witness for C10: a broadcasting first update stores a block, its wake
value is not nil, and the nil `ResolveFull` outcome in the cancelled trace
is traced back to the cancelled-before-wait path. -/
theorem C10_broadcast_full_nonnull_witness :
    (((newPayload bk0).update bk1 5).payload.full).isSome = true ∧
    ((newPayload bk0).update bk1 5).payload.ResolveFullWake ≠ none ∧
    ((0, (none : Option ExecutableDataV1)) ∈ sExStop.finished
      ∨ (Event.resolveFullCall 0 = Event.resolveFullCall 0
          ∧ sExStop.payload.full = none ∧ sExStop.payload.stopClosed = true)) :=
  ⟨C10_broadcast_full_nonnull.1 (newPayload bk0) bk1 5 rfl,
   C10_broadcast_full_nonnull.2.1 (newPayload bk0) bk1 5 rfl,
   C10_broadcast_full_nonnull.2.2 sExStop (.resolveFullCall 0) 0 (by decide)⟩

/-! Lemmas about the background improver loop and `buildPayload`. -/

lemma improverRun_nil (recommit : Nat) (g : Nat → Except String (Block × Int))
    (st : LoopState) : improverRun recommit g st [] = (st, none) := rfl

lemma improverRun_timer_ok (recommit : Nat) (g : Nat → Except String (Block × Int))
    (st : LoopState) (rest : List LoopSignal) (block : Block) (fees : Int)
    (h : g st.attempts = .ok (block, fees)) :
    improverRun recommit g st (.timerC :: rest)
      = improverRun recommit g
          { payload := (st.payload.update block fees).payload,
            attempts := st.attempts + 1, timerD := recommit } rest := by
  simp [improverRun, h]

lemma improverRun_timer_err (recommit : Nat) (g : Nat → Except String (Block × Int))
    (st : LoopState) (rest : List LoopSignal) (msg : String)
    (h : g st.attempts = .error msg) :
    improverRun recommit g st (.timerC :: rest)
      = improverRun recommit g
          { payload := st.payload, attempts := st.attempts + 1, timerD := recommit } rest := by
  simp [improverRun, h]

lemma improverRun_stopC (recommit : Nat) (g : Nat → Except String (Block × Int))
    (st : LoopState) (rest : List LoopSignal) :
    improverRun recommit g st (.stopC :: rest) = (st, some .stopSignal) := rfl

lemma improverRun_endTimerC (recommit : Nat) (g : Nat → Except String (Block × Int))
    (st : LoopState) (rest : List LoopSignal) :
    improverRun recommit g st (.endTimerC :: rest) = (st, some .deadline) := rfl

lemma improverRun_stopClosed (recommit : Nat) (g : Nat → Except String (Block × Int))
    (sigs : List LoopSignal) :
    ∀ st : LoopState,
      ((improverRun recommit g st sigs).1).payload.stopClosed = st.payload.stopClosed := by
  induction sigs with
  | nil => intro st; rfl
  | cons sig rest ih =>
    intro st
    cases sig with
    | timerC =>
      cases hg : g st.attempts with
      | ok v =>
        obtain ⟨block, fees⟩ := v
        rw [improverRun_timer_ok recommit g st rest block fees hg, ih]
        exact update_payload_stopClosed st.payload block fees
      | error msg =>
        rw [improverRun_timer_err recommit g st rest msg hg, ih]
    | stopC => rfl
    | endTimerC => rfl

lemma improverRun_exit_none (recommit : Nat) (g : Nat → Except String (Block × Int))
    (sigs : List LoopSignal) :
    ∀ st : LoopState,
      (improverRun recommit g st sigs).2 = none ↔ ∀ x ∈ sigs, x = LoopSignal.timerC := by
  induction sigs with
  | nil => intro st; simp [improverRun_nil]
  | cons sig rest ih =>
    intro st
    cases sig with
    | timerC =>
      cases hg : g st.attempts with
      | ok v =>
        obtain ⟨block, fees⟩ := v
        rw [improverRun_timer_ok recommit g st rest block fees hg, ih]
        simp
      | error msg =>
        rw [improverRun_timer_err recommit g st rest msg hg, ih]
        simp
    | stopC =>
      rw [improverRun_stopC]
      simp
    | endTimerC =>
      rw [improverRun_endTimerC]
      simp

lemma improverRun_skip_timers (recommit : Nat) (g : Nat → Except String (Block × Int))
    (sigs : List LoopSignal) (pre : List LoopSignal) :
    ∀ st : LoopState, (∀ x ∈ pre, x = LoopSignal.timerC) →
      ∃ st', improverRun recommit g st (pre ++ sigs) = improverRun recommit g st' sigs
        ∧ st'.payload.stopClosed = st.payload.stopClosed := by
  induction pre with
  | nil => exact fun st _ => ⟨st, rfl, rfl⟩
  | cons x pre' ih =>
    intro st hall
    have hx : x = LoopSignal.timerC := hall x (List.mem_cons_self x pre')
    subst hx
    have hall' : ∀ x ∈ pre', x = LoopSignal.timerC :=
      fun x hx => hall x (List.mem_cons_of_mem _ hx)
    rw [List.cons_append]
    cases hg : g st.attempts with
    | ok v =>
      obtain ⟨block, fees⟩ := v
      rw [improverRun_timer_ok recommit g st (pre' ++ sigs) block fees hg]
      obtain ⟨st', h1, h2⟩ := ih _ hall'
      refine ⟨st', h1, ?_⟩
      rw [h2]
      exact update_payload_stopClosed st.payload block fees
    | error msg =>
      rw [improverRun_timer_err recommit g st (pre' ++ sigs) msg hg]
      obtain ⟨st', h1, h2⟩ := ih _ hall'
      exact ⟨st', h1, h2⟩

lemma step_update_payload (s : SysState) (block : Block) (fees : Int) :
    (step s (.update block fees)).payload = (s.payload.update block fees).payload := by
  simp only [step]
  split <;> rfl

lemma step_rfc_payload (s : SysState) (tid : Nat) :
    (step s (.resolveFullCall tid)).payload = s.payload := by
  simp only [step]
  split <;> rfl

/-- Claim C6: `buildPayload` calls the builder synchronously with
`emptyOnly = true`; a builder error is returned directly with no payload
object and no background task, while success yields the payload built
around the baseline together with the freshly spawned improver (rebuild
timer `0`, deadline timer 12 units). -/
theorem C6_buildPayload_baseline_fatal :
    (∀ (getSealingBlock : Bool → Except String (Block × Int)) (err : String),
        getSealingBlock true = .error err →
        buildPayload getSealingBlock = .error err) ∧
    (∀ (getSealingBlock : Bool → Except String (Block × Int)) (empty : Block) (fees : Int),
        getSealingBlock true = .ok (empty, fees) →
        buildPayload getSealingBlock
          = .ok { payload := newPayload empty,
                  improver := { payload := newPayload empty, attempts := 0, timerD := 0 },
                  endTimerD := 12 }) := by
  constructor
  · intro g err h
    simp [buildPayload, h]
  · intro g empty fees h
    simp [buildPayload, h]

/-- Witness for C6: a failing baseline build propagates its error and
produces nothing; a succeeding one returns the cache and the spawned
loop. -/
theorem C6_buildPayload_baseline_fatal_witness :
    buildPayload gErr = .error "sealing failed" ∧
    buildPayload gOk
      = .ok { payload := newPayload bk1,
              improver := { payload := newPayload bk1, attempts := 0, timerD := 0 },
              endTimerD := 12 } :=
  ⟨C6_buildPayload_baseline_fatal.1 gErr "sealing failed" rfl,
   C6_buildPayload_baseline_fatal.2 gOk bk1 7 rfl⟩

/-- Claim C8: a failed build attempt never terminates the improver loop: the
error is discarded, the update skipped, the attempt counter advanced, the
rebuild timer reset to the recommit interval, and the loop waits for the
next signal; the loop returns exactly when a `stop` or deadline signal
fires — a trace of timer ticks alone, however its builds fail, leaves it
running. -/
theorem C8_improver_survives_failures :
    (∀ (recommit : Nat) (g : Nat → Except String (Block × Int)) (st : LoopState)
        (rest : List LoopSignal) (msg : String),
        g st.attempts = .error msg →
        improverRun recommit g st (.timerC :: rest)
          = improverRun recommit g
              { payload := st.payload, attempts := st.attempts + 1, timerD := recommit }
              rest) ∧
    (∀ (recommit : Nat) (g : Nat → Except String (Block × Int)) (st : LoopState)
        (sigs : List LoopSignal),
        (improverRun recommit g st sigs).2 = none ↔ ∀ x ∈ sigs, x = LoopSignal.timerC) ∧
    (∀ (recommit : Nat) (g : Nat → Except String (Block × Int)) (st : LoopState)
        (pre post : List LoopSignal),
        (∀ x ∈ pre, x = LoopSignal.timerC) →
        (improverRun recommit g st (pre ++ LoopSignal.stopC :: post)).2
          = some LoopExit.stopSignal) := by
  refine ⟨?_, ?_, ?_⟩
  · intro recommit g st rest msg h
    exact improverRun_timer_err recommit g st rest msg h
  · intro recommit g st sigs
    exact improverRun_exit_none recommit g sigs st
  · intro recommit g st pre post hall
    obtain ⟨st', h1, _⟩ := improverRun_skip_timers recommit g (LoopSignal.stopC :: post) pre st hall
    rw [h1, improverRun_stopC]

/-- Witness for C8: with an always-failing builder, a timer tick just
advances the loop, and a stop signal after a failed tick terminates it with
the stop reason. -/
theorem C8_improver_survives_failures_witness :
    improverRun 5 gLoopErr stEx [.timerC, .endTimerC]
      = improverRun 5 gLoopErr
          { payload := stEx.payload, attempts := stEx.attempts + 1, timerD := 5 }
          [.endTimerC] ∧
    (improverRun 5 gLoopErr stEx ([LoopSignal.timerC] ++ LoopSignal.stopC :: [])).2
      = some LoopExit.stopSignal :=
  ⟨C8_improver_survives_failures.1 5 gLoopErr stEx [.endTimerC] "sealing failed" rfl,
   C8_improver_survives_failures.2.2 5 gLoopErr stEx [LoopSignal.timerC] [] (by simp)⟩

/-- Claim C9: the improver loop never touches the `stop` channel — after any
run, in particular one ended by the deadline timer, the payload's
cancellation state is exactly what it was; only a `Resolve` event flips it;
and `Resolve` called after the deadline still returns the final
full-or-baseline result in wire format. -/
theorem C9_deadline_leaves_cancellation_unchanged :
    (∀ (recommit : Nat) (g : Nat → Except String (Block × Int)) (st : LoopState)
        (sigs : List LoopSignal),
        ((improverRun recommit g st sigs).1).payload.stopClosed
          = st.payload.stopClosed) ∧
    (∀ (s : SysState) (e : Event),
        (step s e).payload.stopClosed = true →
        s.payload.stopClosed = true ∨ e = Event.resolve) ∧
    (∀ (recommit : Nat) (g : Nat → Except String (Block × Int)) (st : LoopState)
        (pre post : List LoopSignal),
        (∀ x ∈ pre, x = LoopSignal.timerC) →
        (improverRun recommit g st (pre ++ LoopSignal.endTimerC :: post)).2
            = some LoopExit.deadline
          ∧ (((improverRun recommit g st (pre ++ LoopSignal.endTimerC :: post)).1.payload).Resolve).2
              = BlockToExecutableData
                  (((improverRun recommit g st (pre ++ LoopSignal.endTimerC :: post)).1.payload.full).getD
                    (improverRun recommit g st (pre ++ LoopSignal.endTimerC :: post)).1.payload.empty)) := by
  refine ⟨?_, ?_, ?_⟩
  · intro recommit g st sigs
    exact improverRun_stopClosed recommit g sigs st
  · intro s e h
    cases e with
    | update block fees =>
      left
      rw [step_update_payload, update_payload_stopClosed] at h
      exact h
    | resolve => exact Or.inr rfl
    | resolveFullCall tid =>
      left
      rw [step_rfc_payload] at h
      exact h
  · intro recommit g st pre post hall
    obtain ⟨st', h1, _⟩ := improverRun_skip_timers recommit g (LoopSignal.endTimerC :: post) pre st hall
    rw [h1, improverRun_endTimerC]
    exact ⟨rfl, resolve_snd _⟩

/-- Witness for C9: a stale update on the cancelled sample state keeps
`stop` closed without `Resolve` being the cause having changed, matching the
only-`Resolve`-flips disjunction; and a failed tick followed by the deadline
exits with reason deadline while `Resolve` still answers. -/
theorem C9_deadline_leaves_cancellation_unchanged_witness :
    (sExStop.payload.stopClosed = true ∨ Event.update bk1 5 = Event.resolve) ∧
    ((improverRun 5 gLoopErr stEx ([LoopSignal.timerC] ++ LoopSignal.endTimerC :: [])).2
        = some LoopExit.deadline
      ∧ (((improverRun 5 gLoopErr stEx ([LoopSignal.timerC] ++ LoopSignal.endTimerC :: [])).1.payload).Resolve).2
          = BlockToExecutableData
              (((improverRun 5 gLoopErr stEx ([LoopSignal.timerC] ++ LoopSignal.endTimerC :: [])).1.payload.full).getD
                (improverRun 5 gLoopErr stEx ([LoopSignal.timerC] ++ LoopSignal.endTimerC :: [])).1.payload.empty)) :=
  ⟨C9_deadline_leaves_cancellation_unchanged.2.1 sExStop (.update bk1 5) (by decide),
   C9_deadline_leaves_cancellation_unchanged.2.2 5 gLoopErr stEx [LoopSignal.timerC] [] (by simp)⟩

end Miner
